import Mathlib

/-!
# Verification of the Gale yearbook scraper suite

Shallow embedding of the manifest/ledger handling code of the repository:

* `Gale.Crawl` — the reconciler `cleanup_manifest` of
  `src/scraping/crawl_yearbook.py` (CSV manifest rows, stale-entry removal,
  zip-to-directory rewrite, conditional write-back).
* `Gale.FileOps` — a small file-operation semantics used to analyse the
  atomicity of the manifest writers (temp-file-and-rename vs in-place write).
* `Gale.Direct` — the JSON-manifest scraper `src/yb_direct_download_scraper.py`
  (`check_url_changed`, `download_file`, `make_request_with_retry`, the
  per-link loop of `scrape_yearbooks`, `save_manifest`).
* `Gale.Scrape` — `src/scraping/scrape_yearbook.py` (`retrying_get`, the
  per-item loop and counters of `main`, and the parts of `ManifestState`
  that the claims need, modelled from the specification because the module
  `manifest_state` itself is not among the repository sources).

Text values (paths, URLs, header values, file contents) are embedded as
`List Char` so that every definition evaluates by kernel reduction.
-/

namespace Gale

/-- Text values of the Python code (paths, URLs, header values), embedded as
character lists so that all operations compute by structural recursion. -/
abbrev Str := List Char

/-- The character list of a string literal. -/
def strOf (s : String) : Str := s.data

namespace Crawl

/-- One CSV row of the yearbook manifest (`state/yearbook_manifest.csv`) as
read by `csv.DictReader` in `cleanup_manifest`
(`src/scraping/crawl_yearbook.py`).  Every field is a string. -/
structure Row where
  period : Str
  url : Str
  filename : Str
  saved_path : Str
  hash : Str
  etag : Str
  last_modified : Str
  content_length : Str
  version : Str
  last_seen_at : Str
deriving DecidableEq

/-- The filesystem queries `cleanup_manifest` performs on a path string:
`Path(p).exists()`, `Path(p).is_dir()` and `str(Path(p).resolve())`. -/
structure FS where
  ex : Str → Bool
  isDir : Str → Bool
  resolve : Str → Str

/-- Split a path string at every `/` (the component list of the path). -/
def splitSlash : Str → List Str
  | [] => [[]]
  | c :: cs =>
    if c = '/' then [] :: splitSlash cs
    else
      match splitSlash cs with
      | [] => [[c]]
      | h :: t => (c :: h) :: t

/-- `Path(s).name`: the final path component (the text after the last `/`). -/
def pathName (s : Str) : Str :=
  (splitSlash s).getLastD s

/-- `str.endswith(suffix)` of Python. -/
def endsWith (s suffix : Str) : Bool :=
  suffix.isSuffixOf s

/-- `Path(s).with_suffix('')` for a path string that ends with `".zip"`:
drops the `.zip` suffix, except when the final component is exactly `".zip"`
(a dot-file has no suffix in `pathlib`, so the path is returned unchanged). -/
def stripZip (s : Str) : Str :=
  if pathName s = strOf ".zip" then s else s.take (s.length - 4)

/-- The record produced by the zip-to-directory rule of `cleanup_manifest`
(lines 50-58 of `src/scraping/crawl_yearbook.py`): `saved_path` becomes
`str(folder_path.resolve())` and `filename` becomes `folder_path.name`. -/
def zipRewrite (fs : FS) (row : Row) : Row :=
  { row with
      saved_path := fs.resolve (stripZip row.saved_path)
      filename := pathName (stripZip row.saved_path) }

/-- The body of the per-row loop of `cleanup_manifest`
(`src/scraping/crawl_yearbook.py` lines 36-62).  `none` means the row is
dropped and counted in `removed_count`; `some r` means `r` is appended to
`valid_rows` (possibly rewritten by the zip-to-directory rule). -/
def processRow (fs : FS) (row : Row) : Option Row :=
  if row.saved_path = [] then none
  else if fs.ex row.saved_path then some row
  else if endsWith row.saved_path (strOf ".zip") then
    if fs.ex (stripZip row.saved_path) && fs.isDir (stripZip row.saved_path) then
      some (zipRewrite fs row)
    else none
  else none

/-- The `valid_rows` list accumulated by `cleanup_manifest`. -/
def validRows (fs : FS) (rows : List Row) : List Row :=
  rows.filterMap (processRow fs)

/-- The `removed_count` counter of `cleanup_manifest`. -/
def removedCount (fs : FS) (rows : List Row) : Nat :=
  rows.countP (fun r => (processRow fs r).isNone)

/-- The manifest rows on disk after `cleanup_manifest` returns: the filtered
set is written back (to a temp file, then renamed over the original) only
when `removed_count > 0`; otherwise the manifest file is left untouched
(`src/scraping/crawl_yearbook.py` lines 64-75). -/
def cleanup_manifest (fs : FS) (rows : List Row) : List Row :=
  if 0 < removedCount fs rows then validRows fs rows else rows

end Crawl

namespace FileOps

/-- A filesystem snapshot: path contents (`none` = no file at that path). -/
def FileSys := Str → Option Str

/-- The file operations the manifest writers perform. -/
inductive FOp where
  | trunc (p : Str)
  | append (p : Str) (c : Str)
  | ren (src dst : Str)

/-- Effect of one operation: `trunc` is `open(p, "w")` (create or truncate to
empty), `append` is one buffered write of chunk `c` to the open file at `p`,
and `ren` is `Path(src).replace(dst)` — the atomic rename. -/
def applyOp (fs : FileSys) : FOp → FileSys
  | .trunc p => fun q => if q = p then some [] else fs q
  | .append p c => fun q => if q = p then some (((fs p).getD []) ++ c) else fs q
  | .ren src dst => fun q => if q = dst then fs src else if q = src then none else fs q

/-- The successive filesystem snapshots while running `ops`, initial state
included. -/
def traceStates (fs : FileSys) : List FOp → List FileSys
  | [] => [fs]
  | op :: ops => fs :: traceStates (applyOp fs op) ops

/-- The successive contents of the file at `p` while running `ops`. -/
def contentTrace (fs : FileSys) (ops : List FOp) (p : Str) : List (Option Str) :=
  (traceStates fs ops).map (fun s => s p)

/-- The file operations of `save_manifest` (`src/yb_direct_download_scraper.py`
lines 209-212): open the manifest path itself in `"w"` mode — truncating it in
place — then write the JSON serialization chunk by chunk.  No temporary file
is involved. -/
def saveOps (m : Str) (chunks : List Str) : List FOp :=
  FOp.trunc m :: chunks.map (FOp.append m)

/-- The file operations of the manifest write-back in `cleanup_manifest`
(`src/scraping/crawl_yearbook.py` lines 64-72): write the new content to the
temp path `tmp`, then `tmp.replace(manifest_path)`. -/
def atomicOps (m tmp : Str) (chunks : List Str) : List FOp :=
  FOp.trunc tmp :: (chunks.map (FOp.append tmp) ++ [FOp.ren tmp m])

/-- Concatenation of the written chunks: the complete new file content. -/
def joinChunks (chunks : List Str) : Str := chunks.foldl (· ++ ·) []

end FileOps

/-- One attempt's outcome as seen by the retry helpers: an HTTP response with
its status code, or one of the `requests` exception classes. -/
inductive Outcome where
  | resp (status : Nat)
  | timeout
  | connError
  | reqError
deriving DecidableEq

/-- `resp.raise_for_status()` raises `HTTPError` exactly for 4xx and 5xx
status codes. -/
def raiseFails (status : Nat) : Bool :=
  decide (400 ≤ status) && decide (status < 600)

/-- An attempt of `make_request_with_retry` succeeds (the response is
returned) iff the request raised no exception and `raise_for_status`
passed; every raise, of whatever class, lands in a retrying handler. -/
def attemptOk (o : Outcome) : Bool :=
  match o with
  | .resp s => !raiseFails s
  | _ => false

namespace Direct

/-- `d.get(k)` on a Python dict modelled as an association list. -/
def alLookup {α : Type} (l : List (Str × α)) (k : Str) : Option α :=
  (l.find? (fun p => p.1 == k)).map (·.2)

/-- `d[k] = v` on a Python dict: after it, `k` maps to `v` and every other
key is unchanged (the entry order of the Python dict is not modelled). -/
def alInsert {α : Type} (l : List (Str × α)) (k : Str) (v : α) : List (Str × α) :=
  (k, v) :: l.filter (fun p => !(p.1 == k))

/-- One entry of `manifest["files"]`
(`src/yb_direct_download_scraper.py` lines 577-583). -/
structure FileEntry where
  url : Str
  hash : Str
  year : Nat
  filename : Str
  timestamp : Nat
deriving DecidableEq

/-- The JSON download manifest in its envelope form:
`{"files": {...}, "_url_meta": {...}}`. -/
structure Manifest where
  files : List (Str × FileEntry)
  urlMeta : List (Str × Str)
deriving DecidableEq

/-- Result of the `requests.head` call in `check_url_changed`: the request or
`raise_for_status` failed, or it returned with the `ETag` and `Last-Modified`
header values (absent headers default to the empty string, lines 289-290). -/
inductive HeadResult where
  | fail
  | ok (etag lastModified : Str)
deriving DecidableEq

/-- `header_key = f"{etag}|{last_modified}"` (line 291). -/
def headerKey (etag lastModified : Str) : Str :=
  etag ++ '|' :: lastModified

/-- `check_url_changed` (`src/yb_direct_download_scraper.py` lines 271-306):
`True` means new-or-changed (download), `False` means unchanged (skip).  On a
successful HEAD the observed header key is written into
`manifest["_url_meta"][url]` before the comparison result is returned. -/
def check_url_changed (url : Str) (hr : HeadResult) (m : Manifest) : Bool × Manifest :=
  match hr with
  | .fail => (true, m)
  | .ok etag lastModified =>
    let key := headerKey etag lastModified
    let stored := alLookup m.urlMeta url
    let m2 : Manifest := { m with urlMeta := alInsert m.urlMeta url key }
    match stored with
    | some k => if k ≠ [] ∧ k = key then (false, m2) else (true, m2)
    | none => (true, m2)

/-- `make_request_with_retry` (`src/yb_direct_download_scraper.py` lines
118-184) driven by the oracle `outcomes` giving each attempt's outcome:
`while attempt < max_retries`, return the response on success, otherwise
`attempt += 1` and, if attempts remain, sleep
`RETRY_DELAY_INITIAL * RETRY_BACKOFF_FACTOR ** (attempt - 1)` seconds.
Returns the index of the first successful attempt (`none` when all attempts
failed) and the list of backoff delays slept. -/
def mrLoop (outcomes : Nat → Outcome) (maxRetries : Nat) : Nat → Nat → Option Nat × List Nat
  | _, 0 => (none, [])
  | attempt, fuel + 1 =>
    if attempt < maxRetries then
      if attemptOk (outcomes attempt) then (some attempt, [])
      else if attempt + 1 < maxRetries then
        let r := mrLoop outcomes maxRetries (attempt + 1) fuel
        (r.1, 1 * 2 ^ (attempt + 1 - 1) :: r.2)
      else (none, [])
    else (none, [])

def make_request_with_retry (outcomes : Nat → Outcome) (maxRetries : Nat) :
    Option Nat × List Nat :=
  mrLoop outcomes maxRetries 0 (maxRetries + 1)

/-- The number of attempts `make_request_with_retry` makes. -/
def mrCount (outcomes : Nat → Outcome) (maxRetries : Nat) : Nat :=
  match (make_request_with_retry outcomes maxRetries).1 with
  | some i => i + 1
  | none => maxRetries

/-- The `content-length` header check of `download_file` (lines 443-446):
a present header whose integer value exceeds `max_size`. -/
def clTooLarge (contentLength : Option Nat) (maxSize : Nat) : Bool :=
  match contentLength with
  | some l => decide (maxSize < l)
  | none => false

/-- The streaming loop of `download_file` (lines 451-461), with chunks as
byte counts: an empty chunk is falsy and skipped; the running size is
checked against `max_size` after adding each chunk and before writing it;
on violation the partial file is removed (`os.remove`) and `False` is
returned.  Yields (success, final content at `filepath`, successive contents
at `filepath` after each write or remove). -/
def dlLoop (maxSize : Nat) : List Nat → Nat → Bool × Option Nat × List (Option Nat)
  | [], acc => (true, some acc, [])
  | c :: cs, acc =>
    if c = 0 then dlLoop maxSize cs acc
    else if maxSize < acc + c then (false, none, [none])
    else
      let r := dlLoop maxSize cs (acc + c)
      (r.1, r.2.1, some (acc + c) :: r.2.2)

/-- `download_file` (`src/yb_direct_download_scraper.py` lines 430-475),
given the `content-length` header, the streamed chunk sizes, the size limit
and the content already at `filepath` before the call.  Returns (success,
final content at `filepath`, trace of the contents at `filepath` starting
with the initial one).  `open(filepath, "wb")` truncates the target in
place — the bytes are streamed to the final artifact path itself, there is
no staging path. -/
def download_file (contentLength : Option Nat) (chunks : List Nat) (maxSize : Nat)
    (init : Option Nat) : Bool × Option Nat × List (Option Nat) :=
  if clTooLarge contentLength maxSize then (false, init, [init])
  else
    let r := dlLoop maxSize chunks 0
    (r.1, r.2.1, init :: some 0 :: r.2.2)

/-- How one link of the per-file loop of `scrape_yearbooks` ends
(`src/yb_direct_download_scraper.py` lines 543-593). -/
inductive LinkResult where
  | skippedHeaders
  | skippedHash
  | downloaded
  | failed
deriving DecidableEq

/-- The manifest key of a link: `file_key = f"{year}/{filename}"` (line 547). -/
def fileKey (year : Nat) (filename : Str) : Str :=
  Nat.toDigits 10 year ++ '/' :: filename

/-- One iteration of the per-link loop of `scrape_yearbooks`
(`src/yb_direct_download_scraper.py` lines 543-593).  `localHash` is the
hash of the file currently at `filepath` (`none` when the file is absent or
hashing raised), `dlOk` the result of `download_file`, `dlHash` the hash
computed from the downloaded bytes (`none` when hashing raised), `now` the
timestamp.  Returns the classification, whether a download was attempted,
and the updated manifest. -/
def processLink (year : Nat) (filename url : Str) (hr : HeadResult)
    (localHash : Option Str) (dlOk : Bool) (dlHash : Option Str)
    (m : Manifest) (now : Nat) : LinkResult × Bool × Manifest :=
  let key := fileKey year filename
  let c := check_url_changed url hr m
  if !c.1 then (.skippedHeaders, false, c.2)
  else
    let hashSkip :=
      match alLookup c.2.files key, localHash with
      | some entry, some h => h == entry.hash
      | _, _ => false
    if hashSkip then (.skippedHash, false, c.2)
    else if dlOk then
      match dlHash with
      | some h =>
        (.downloaded, true,
          { c.2 with files := alInsert c.2.files key ⟨url, h, year, filename, now⟩ })
      | none => (.failed, true, c.2)
    else (.failed, true, c.2)

end Direct

namespace Scrape

/-- The statuses `retrying_get` explicitly raises a retryable `HTTPError`
for (`src/scraping/scrape_yearbook.py` line 63). -/
def retryable : List Nat := [429, 500, 502, 503, 504]

/-- One attempt of `retrying_get` succeeds iff the GET raised no exception,
the status is not in the retryable list, and `raise_for_status` passed.
Both raise paths land in the same `except Exception` handler. -/
def rgAttemptOk (o : Outcome) : Bool :=
  match o with
  | .resp s => !(retryable.contains s) && !(raiseFails s)
  | _ => false

/-- `retrying_get` (`src/scraping/scrape_yearbook.py` lines 58-72) driven by
the outcome oracle: `for i in range(4)`; on failure re-raise when `i == 3`,
otherwise sleep `backoff` seconds and double it.  Returns the index of the
first successful attempt (`none` = the final exception propagates) and the
list of backoff delays slept. -/
def rgLoop (outcomes : Nat → Outcome) : Nat → Nat → Nat → Option Nat × List Nat
  | _, _, 0 => (none, [])
  | i, backoff, fuel + 1 =>
    if rgAttemptOk (outcomes i) then (some i, [])
    else if i == 3 then (none, [])
    else
      let r := rgLoop outcomes (i + 1) (backoff * 2) fuel
      (r.1, backoff :: r.2)

def retrying_get (outcomes : Nat → Outcome) : Option Nat × List Nat :=
  rgLoop outcomes 0 1 4

/-- The number of attempts `retrying_get` makes. -/
def rgCount (outcomes : Nat → Outcome) : Nat :=
  match (retrying_get outcomes).1 with
  | some i => i + 1
  | none => 4

/-- How one candidate of the per-file loop of `main` ends, as classified by
its counters (`src/scraping/scrape_yearbook.py` lines 415-467). -/
inductive ItemOutcome where
  | skipped
  | registered
  | registerFailed
  | versioned
  | downloaded
  | unchanged
  | error
deriving DecidableEq

/-- The summary counters of `main` (line 383). -/
structure Counts where
  downloaded : Nat
  versioned : Nat
  skipped : Nat
  unchanged : Nat
  errors : Nat
deriving DecidableEq

/-- How one item outcome updates the counters: a successful registration is
counted as a download (line 436); a falsy `register_existing_file` result
increments nothing; a caught per-item exception increments `errors`. -/
def tally (c : Counts) : ItemOutcome → Counts
  | .skipped => { c with skipped := c.skipped + 1 }
  | .registered => { c with downloaded := c.downloaded + 1 }
  | .registerFailed => c
  | .versioned => { c with versioned := c.versioned + 1 }
  | .downloaded => { c with downloaded := c.downloaded + 1 }
  | .unchanged => { c with unchanged := c.unchanged + 1 }
  | .error => { c with errors := c.errors + 1 }

/-- The counters after the per-file loop has processed every candidate: each
outcome is tallied in turn and the loop continues to the next item — a
caught per-item exception only increments `errors`. -/
def runCounts (items : List ItemOutcome) : Counts :=
  items.foldl tally ⟨0, 0, 0, 0, 0⟩

/-- What discovery produced: `discover_yearbooks` raised (caught by `main`,
lines 385-389), or succeeded with yearbooks whose links flatten into the
given per-item outcomes. -/
inductive Discovery where
  | fail
  | ok (items : List ItemOutcome)

/-- `main` of `src/scraping/scrape_yearbook.py`: every path — discovery
failure (line 389), empty discovery (line 393) and normal completion — ends
in a bare `return`, so the returned value is Python's `None` in all cases;
the counters are those accumulated so far. -/
def scrapeMain (d : Discovery) : Option Nat × Counts :=
  match d with
  | .fail => (none, ⟨0, 0, 0, 0, 0⟩)
  | .ok items => (none, runCounts items)

/-- Exit status of a script whose top-level statement is a bare function
call (`main()` on line 488, not `sys.exit(main())`): the returned value is
discarded and the interpreter exits with status 0. -/
def bareCallExit {α : Type} (_ret : α) : Nat := 0

/-- The process exit status of `python scrape_yearbook.py`. -/
def scrapeExit (d : Discovery) : Nat :=
  bareCallExit (scrapeMain d)

/-- The decisions of the `ManifestState` decision engine. -/
inductive Decision where
  | skip
  | fresh
  | version
  | overwrite
deriving DecidableEq

/-- Modelled from the spec: `ManifestState.plan` — the module
`manifest_state` is not among the repository sources, only its callers are.
Spec §4.2: (1) no current record for (period, url) → `fresh`; (2) validators
available and matching the stored ones → `skip`; (4) content differing under
mode `safe` → `version`; (5) mode `overwrite` → `overwrite`. -/
def plan (hasRecord validatorsMatch modeSafe : Bool) : Decision :=
  if !hasRecord then .fresh
  else if validatorsMatch then .skip
  else if modeSafe then .version else .overwrite

/-- Trace of one iteration of the per-file loop of `main`
(`src/scraping/scrape_yearbook.py` lines 420-467): how the item was counted,
whether `register_existing_file` was called, and whether
`download_and_record` was called. -/
structure ItemTrace where
  outcome : ItemOutcome
  calledRegister : Bool
  calledDownload : Bool
deriving DecidableEq

/-- One iteration of the per-file loop of `main`.  `hasRecord` is
`(period, file_url) ∈ state.index`, `fileExistsAtPath` is
`expected_path.exists()` (line 433), `registerOk` the truthiness of
`register_existing_file`'s result (modelled from the spec, §4.2 edge case:
it registers the on-disk file into the ledger without re-downloading), and
`downloadResult` the value `download_and_record` returns (`none` = no-op). -/
def processItem (hasRecord validatorsMatch modeSafe fileExistsAtPath registerOk : Bool)
    (downloadResult : Option Str) : ItemTrace :=
  if plan hasRecord validatorsMatch modeSafe = .skip then
    ⟨.skipped, false, false⟩
  else if fileExistsAtPath && !hasRecord then
    ⟨if registerOk then .registered else .registerFailed, true, false⟩
  else
    match downloadResult with
    | some _ =>
      ⟨if plan hasRecord validatorsMatch modeSafe = .version then .versioned
        else .downloaded, false, true⟩
    | none => ⟨.unchanged, false, true⟩

end Scrape

namespace Crawl

/-- Example filesystem: exactly the directory `/d/a` exists. -/
def fsA : FS :=
  ⟨fun s => s == strOf "/d/a", fun s => s == strOf "/d/a", fun s => s⟩

/-- Example filesystem: exactly the directory `/e/b` exists. -/
def fsB : FS :=
  ⟨fun s => s == strOf "/e/b", fun s => s == strOf "/e/b", fun s => s⟩

/-- A manifest row whose `saved_path` is the missing archive `/d/a.zip`. -/
def rowZipA : Row :=
  ⟨strOf "1996", strOf "https://x/a.zip", strOf "a.zip", strOf "/d/a.zip",
    strOf "h1", [], [], [], strOf "1", strOf "t1"⟩

/-- A manifest row whose `saved_path` is the missing archive `/e/b.zip`. -/
def rowZipB : Row :=
  ⟨strOf "1997", strOf "https://x/b.zip", strOf "b.zip", strOf "/e/b.zip",
    strOf "h2", [], [], [], strOf "1", strOf "t2"⟩

/-- A manifest row whose `saved_path` `/d/gone.pdf` does not exist. -/
def rowGone : Row :=
  ⟨strOf "1998", strOf "https://x/gone.pdf", strOf "gone.pdf", strOf "/d/gone.pdf",
    strOf "h3", [], [], [], strOf "1", strOf "t3"⟩

/-- A manifest row whose `saved_path` `/d/a` exists. -/
def rowKept : Row :=
  ⟨strOf "1999", strOf "https://x/keep", strOf "a", strOf "/d/a",
    strOf "h4", [], [], [], strOf "1", strOf "t4"⟩

end Crawl

namespace FileOps

/-- Initial filesystem for the write examples: the manifest file `m.json`
holds the content `OLD` and nothing else exists. -/
def fsOld : FileSys :=
  fun p => if p = strOf "m.json" then some (strOf "OLD") else none

end FileOps

namespace Direct

/-- A manifest whose cached header key for `https://x/f.pdf` is `"|"` — the
key produced when both validators were absent on the previous run. -/
def mBarOnly : Manifest :=
  ⟨[], [(strOf "https://x/f.pdf", strOf "|")]⟩

end Direct

/-! ## Helper lemmas -/

/-- An empty `saved_path` does not end with `.zip`. -/
theorem endsWith_nil_zip : Crawl.endsWith [] (strOf ".zip") = false := by decide

/-- Filtering is a sublist of a `filterMap` that keeps every element the
filter keeps, unchanged. -/
theorem filter_sublist_filterMap {α : Type} (p : α → Bool) (f : α → Option α)
    (h : ∀ a, p a = true → f a = some a) :
    ∀ l : List α, List.Sublist (l.filter p) (l.filterMap f)
  | [] => by simp
  | a :: l => by
    cases hf : f a with
    | none =>
      have hp : ¬p a = true := by
        intro hp
        rw [h a hp] at hf
        cases hf
      simp only [List.filter_cons, List.filterMap_cons, hf, hp, if_false]
      exact filter_sublist_filterMap p f h l
    | some b =>
      by_cases hp : p a = true
      · have hb : b = a := by
          have h2 := h a hp
          rw [hf] at h2
          exact Option.some.inj h2
        subst hb
        simp only [List.filter_cons, List.filterMap_cons, hf, hp, if_true]
        exact List.Sublist.cons₂ b (filter_sublist_filterMap p f h l)
      · simp only [List.filter_cons, List.filterMap_cons, hf, hp, if_false]
        exact List.Sublist.cons b (filter_sublist_filterMap p f h l)

/-- The per-row loop keeps a row exactly when its path is nonempty and
exists, or the zip-to-directory rule fires. -/
theorem processRow_eq_none_iff (fs : Crawl.FS) (r : Crawl.Row) :
    Crawl.processRow fs r = none ↔
      (r.saved_path = [] ∨
        (fs.ex r.saved_path = false ∧
          ¬(Crawl.endsWith r.saved_path (strOf ".zip") = true ∧
            fs.ex (Crawl.stripZip r.saved_path) = true ∧
            fs.isDir (Crawl.stripZip r.saved_path) = true))) := by
  unfold Crawl.processRow
  by_cases he : r.saved_path = []
  · simp [he]
  · cases hx : fs.ex r.saved_path with
    | true => simp [he, hx]
    | false =>
      cases hz : Crawl.endsWith r.saved_path (strOf ".zip") with
      | false => simp [he, hx, hz]
      | true =>
        cases hf : fs.ex (Crawl.stripZip r.saved_path) with
        | false => simp [he, hx, hz, hf]
        | true =>
          cases hd : fs.isDir (Crawl.stripZip r.saved_path) with
          | false => simp [he, hx, hz, hf, hd]
          | true => simp [he, hx, hz, hf, hd]

/-- The observed header key is never the empty string: it always contains
the separator bar. -/
theorem headerKey_ne_nil (e l : Str) : Direct.headerKey e l ≠ [] := by
  simp [Direct.headerKey]

/-- Looking up the key just written by `d[k] = v`. -/
theorem alLookup_insert_self {α : Type} (l : List (Str × α)) (k : Str) (v : α) :
    Direct.alLookup (Direct.alInsert l k v) k = some v := by
  simp [Direct.alLookup, Direct.alInsert, List.find?]

/-- On a successful HEAD, `check_url_changed` overwrites the cached header
key of the URL with the observed one — before its decision is returned. -/
theorem check_url_changed_caches (url e l : Str) (m : Direct.Manifest) :
    ((Direct.check_url_changed url (Direct.HeadResult.ok e l) m).2).urlMeta =
      Direct.alInsert m.urlMeta url (Direct.headerKey e l) := by
  unfold Direct.check_url_changed
  cases h : Direct.alLookup m.urlMeta url with
  | none => simp [h]
  | some k =>
    by_cases hk : k ≠ [] ∧ k = Direct.headerKey e l <;> simp [h, hk] <;> split <;> rfl

/-- `check_url_changed` never touches the `files` table. -/
theorem check_url_changed_files (url : Str) (hr : Direct.HeadResult) (m : Direct.Manifest) :
    ((Direct.check_url_changed url hr m).2).files = m.files := by
  unfold Direct.check_url_changed
  cases hr with
  | fail => rfl
  | ok e l =>
    cases h : Direct.alLookup m.urlMeta url with
    | none => simp [h]
    | some k =>
      by_cases hk : k ≠ [] ∧ k = Direct.headerKey e l <;> simp [h, hk] <;> split <;> rfl

/-- The decision of `check_url_changed` is `False` (skip) exactly when the
HEAD succeeded and the stored key equals the observed one. -/
theorem check_url_changed_skip_iff (url : Str) (hr : Direct.HeadResult) (m : Direct.Manifest) :
    (Direct.check_url_changed url hr m).1 = false ↔
      ∃ e l, hr = Direct.HeadResult.ok e l ∧
        Direct.alLookup m.urlMeta url = some (Direct.headerKey e l) := by
  cases hr with
  | fail => simp [Direct.check_url_changed]
  | ok e l =>
    unfold Direct.check_url_changed
    cases h : Direct.alLookup m.urlMeta url with
    | none => simp [h]
    | some k =>
      by_cases hk2 : k = Direct.headerKey e l
      · have hk : k ≠ [] ∧ k = Direct.headerKey e l :=
          ⟨by rw [hk2]; exact headerKey_ne_nil e l, hk2⟩
        simp only [h, if_pos hk]
        constructor
        · intro _
          exact ⟨e, l, rfl, by rw [hk2]⟩
        · intro _
          trivial
      · have hk : ¬(k ≠ [] ∧ k = Direct.headerKey e l) := fun hc => hk2 hc.2
        simp only [h, if_neg hk]
        constructor
        · intro hfalse
          exact Bool.noConfusion hfalse
        · rintro ⟨e2, l2, heq, hl⟩
          injection heq with he2 hl2
          subst he2
          subst hl2
          exact absurd (Option.some.inj hl) hk2

/-- Complete characterisation of the `retrying_get` loop: the result is the
first successful attempt among the (at most four) tried, `none` exactly when
all four fail, and the slept delays form the geometric sequence
`b, 2b, 4b, …`. -/
theorem rgLoop_spec (outcomes : Nat → Outcome) :
    ∀ (fuel i b : Nat), i + fuel = 4 →
      (∀ k, (Scrape.rgLoop outcomes i b fuel).1 = some k →
        i ≤ k ∧ k ≤ 3 ∧ Scrape.rgAttemptOk (outcomes k) = true ∧
        ∀ j, i ≤ j → j < k → Scrape.rgAttemptOk (outcomes j) = false) ∧
      ((Scrape.rgLoop outcomes i b fuel).1 = none ↔
        ∀ j, i ≤ j → j ≤ 3 → Scrape.rgAttemptOk (outcomes j) = false) ∧
      (Scrape.rgLoop outcomes i b fuel).2 =
        (List.range (match (Scrape.rgLoop outcomes i b fuel).1 with
          | some k => k - i
          | none => 3 - i)).map (fun t => b * 2 ^ t)
  | 0, i, b => by
    intro hif
    refine ⟨?_, ?_, ?_⟩
    · intro k hk
      exact absurd hk (by simp [Scrape.rgLoop])
    · constructor
      · intro _ j hj1 hj2
        omega
      · intro _
        simp [Scrape.rgLoop]
    · have h0 : 3 - i = 0 := by omega
      simp [Scrape.rgLoop, h0]
  | fuel + 1, i, b => by
    intro hif
    cases hok : Scrape.rgAttemptOk (outcomes i) with
    | true =>
      refine ⟨?_, ?_, ?_⟩
      · intro k hk
        have hk2 : i = k := by
          simpa [Scrape.rgLoop, hok] using hk
        subst hk2
        exact ⟨Nat.le_refl i, by omega, hok,
          fun j h1 h2 => absurd (Nat.lt_of_le_of_lt h1 h2) (lt_irrefl i)⟩
      · constructor
        · intro hnone
          exact absurd hnone (by simp [Scrape.rgLoop, hok])
        · intro hall
          exact absurd (hall i (Nat.le_refl i) (by omega)) (by simp [hok])
      · simp [Scrape.rgLoop, hok]
    | false =>
      by_cases hi3 : i = 3
      · subst hi3
        refine ⟨?_, ?_, ?_⟩
        · intro k hk
          exact absurd hk (by simp [Scrape.rgLoop, hok])
        · constructor
          · intro _ j h1 h2
            have hj : j = 3 := by omega
            subst hj
            exact hok
          · intro _
            simp [Scrape.rgLoop, hok]
        · simp [Scrape.rgLoop, hok]
      · have hlt : i < 3 := by omega
        have ih := rgLoop_spec outcomes fuel (i + 1) (b * 2) (by omega)
        have hstep : Scrape.rgLoop outcomes i b (fuel + 1) =
            ((Scrape.rgLoop outcomes (i + 1) (b * 2) fuel).1,
              b :: (Scrape.rgLoop outcomes (i + 1) (b * 2) fuel).2) := by
          simp [Scrape.rgLoop, hok, hi3]
        refine ⟨?_, ?_, ?_⟩
        · intro k hk
          rw [hstep] at hk
          obtain ⟨h1, h2, h3, h4⟩ := ih.1 k hk
          refine ⟨by omega, h2, h3, ?_⟩
          intro j hj1 hj2
          rcases Nat.eq_or_lt_of_le hj1 with he | hlt2
          · rw [← he]
            exact hok
          · exact h4 j hlt2 hj2
        · rw [hstep]
          constructor
          · intro hnone j hj1 hj3
            rcases Nat.eq_or_lt_of_le hj1 with he | hlt2
            · rw [← he]
              exact hok
            · exact (ih.2.1.mp hnone) j hlt2 hj3
          · intro hall
            exact ih.2.1.mpr (fun j h1 h2 => hall j (by omega) h2)
        · rw [hstep]
          cases hr : (Scrape.rgLoop outcomes (i + 1) (b * 2) fuel).1 with
          | some k =>
            have hk1 := (ih.1 k hr).1
            have hd := ih.2.2
            simp only [hr] at hd
            simp only [hr]
            have hkk : k - i = (k - (i + 1)) + 1 := by omega
            rw [hd, hkk, List.range_succ_eq_map, List.map_cons, List.map_map]
            congr 1
            · simp
            · refine List.map_congr_left ?_
              intro t _
              simp only [Function.comp, pow_succ]
              ring
          | none =>
            have hd := ih.2.2
            simp only [hr] at hd
            simp only [hr]
            have hkk : 3 - i = (3 - (i + 1)) + 1 := by omega
            rw [hd, hkk, List.range_succ_eq_map, List.map_cons, List.map_map]
            congr 1
            · simp
            · refine List.map_congr_left ?_
              intro t _
              simp only [Function.comp, pow_succ]
              ring

/-- Complete characterisation of the `make_request_with_retry` loop: first
successful attempt among at most `M`, `none` exactly when all `M` fail, and
delays `2^a, 2^(a+1), …`. -/
theorem mrLoop_spec (outcomes : Nat → Outcome) (M : Nat) :
    ∀ (fuel a : Nat), a + fuel = M + 1 →
      (∀ k, (Direct.mrLoop outcomes M a fuel).1 = some k →
        a ≤ k ∧ k < M ∧ attemptOk (outcomes k) = true ∧
        ∀ j, a ≤ j → j < k → attemptOk (outcomes j) = false) ∧
      ((Direct.mrLoop outcomes M a fuel).1 = none ↔
        ∀ j, a ≤ j → j < M → attemptOk (outcomes j) = false) ∧
      (Direct.mrLoop outcomes M a fuel).2 =
        (List.range (match (Direct.mrLoop outcomes M a fuel).1 with
          | some k => k - a
          | none => M - 1 - a)).map (fun t => 2 ^ (a + t))
  | 0, a => by
    intro haf
    refine ⟨?_, ?_, ?_⟩
    · intro k hk
      exact absurd hk (by simp [Direct.mrLoop])
    · constructor
      · intro _ j hj1 hj2
        omega
      · intro _
        simp [Direct.mrLoop]
    · have h0 : M - 1 - a = 0 := by omega
      simp [Direct.mrLoop, h0]
  | fuel + 1, a => by
    intro haf
    by_cases ha : a < M
    · cases hok : attemptOk (outcomes a) with
      | true =>
        refine ⟨?_, ?_, ?_⟩
        · intro k hk
          have hk2 : a = k := by
            simpa [Direct.mrLoop, ha, hok] using hk
          subst hk2
          exact ⟨Nat.le_refl a, ha, hok,
            fun j h1 h2 => absurd (Nat.lt_of_le_of_lt h1 h2) (lt_irrefl a)⟩
        · constructor
          · intro hnone
            exact absurd hnone (by simp [Direct.mrLoop, ha, hok])
          · intro hall
            exact absurd (hall a (Nat.le_refl a) ha) (by simp [hok])
        · simp [Direct.mrLoop, ha, hok]
      | false =>
        by_cases ha2 : a + 1 < M
        · have ih := mrLoop_spec outcomes M fuel (a + 1) (by omega)
          have hstep : Direct.mrLoop outcomes M a (fuel + 1) =
              ((Direct.mrLoop outcomes M (a + 1) fuel).1,
                1 * 2 ^ (a + 1 - 1) :: (Direct.mrLoop outcomes M (a + 1) fuel).2) := by
            simp [Direct.mrLoop, ha, hok, ha2]
          refine ⟨?_, ?_, ?_⟩
          · intro k hk
            rw [hstep] at hk
            obtain ⟨h1, h2, h3, h4⟩ := ih.1 k hk
            refine ⟨by omega, h2, h3, ?_⟩
            intro j hj1 hj2
            rcases Nat.eq_or_lt_of_le hj1 with he | hlt2
            · rw [← he]
              exact hok
            · exact h4 j hlt2 hj2
          · rw [hstep]
            constructor
            · intro hnone j hj1 hj3
              rcases Nat.eq_or_lt_of_le hj1 with he | hlt2
              · rw [← he]
                exact hok
              · exact (ih.2.1.mp hnone) j hlt2 hj3
            · intro hall
              exact ih.2.1.mpr (fun j h1 h2 => hall j (by omega) h2)
          · rw [hstep]
            have hd1 : 1 * 2 ^ (a + 1 - 1) = 2 ^ (a + 0) := by
              simp
            cases hr : (Direct.mrLoop outcomes M (a + 1) fuel).1 with
            | some k =>
              have hk1 := (ih.1 k hr).1
              have hd := ih.2.2
              simp only [hr] at hd
              simp only [hr]
              have hkk : k - a = (k - (a + 1)) + 1 := by omega
              rw [hd, hkk, List.range_succ_eq_map, List.map_cons, List.map_map, hd1]
              congr 1
              refine List.map_congr_left ?_
              intro t _
              simp only [Function.comp]
              congr 1
              omega
            | none =>
              have hd := ih.2.2
              simp only [hr] at hd
              simp only [hr]
              have hkk : M - 1 - a = (M - 1 - (a + 1)) + 1 := by omega
              rw [hd, hkk, List.range_succ_eq_map, List.map_cons, List.map_map, hd1]
              congr 1
              refine List.map_congr_left ?_
              intro t _
              simp only [Function.comp]
              congr 1
              omega
        · have hM : M = a + 1 := by omega
          refine ⟨?_, ?_, ?_⟩
          · intro k hk
            exact absurd hk (by simp [Direct.mrLoop, ha, hok, ha2])
          · constructor
            · intro _ j hj1 hj2
              have hj : j = a := by omega
              subst hj
              exact hok
            · intro _
              simp [Direct.mrLoop, ha, hok, ha2]
          · have h0 : M - 1 - a = 0 := by omega
            simp [Direct.mrLoop, ha, hok, ha2, h0]
    · refine ⟨?_, ?_, ?_⟩
      · intro k hk
        exact absurd hk (by simp [Direct.mrLoop, ha])
      · constructor
        · intro _ j hj1 hj2
          omega
        · intro _
          simp [Direct.mrLoop, ha]
      · have h0 : M - 1 - a = 0 := by omega
        simp [Direct.mrLoop, ha, h0]

/-- If the total streamed size fits the limit, the download loop succeeds
with the full content at the target path. -/
theorem dlLoop_success (maxSize : Nat) :
    ∀ (chunks : List Nat) (acc : Nat), acc + chunks.sum ≤ maxSize →
      (Direct.dlLoop maxSize chunks acc).1 = true ∧
      (Direct.dlLoop maxSize chunks acc).2.1 = some (acc + chunks.sum)
  | [], acc => by
    intro _
    simp [Direct.dlLoop]
  | c :: cs, acc => by
    intro h
    rw [List.sum_cons] at h
    by_cases hc : c = 0
    · subst hc
      have ih := dlLoop_success maxSize cs acc (by omega)
      simpa [Direct.dlLoop] using ih
    · have hns : ¬maxSize < acc + c := by omega
      have ih := dlLoop_success maxSize cs (acc + c) (by omega)
      simp only [Direct.dlLoop]
      rw [if_neg hc, if_neg hns]
      refine ⟨ih.1, ?_⟩
      show (Direct.dlLoop maxSize cs (acc + c)).2.1 = some (acc + (c + cs.sum))
      rw [ih.2]
      congr 1
      omega

/-- If the total streamed size exceeds the limit, the download loop aborts
and removes the partial file: nothing remains at the target path. -/
theorem dlLoop_abort (maxSize : Nat) :
    ∀ (chunks : List Nat) (acc : Nat), acc ≤ maxSize → maxSize < acc + chunks.sum →
      (Direct.dlLoop maxSize chunks acc).1 = false ∧
      (Direct.dlLoop maxSize chunks acc).2.1 = none
  | [], acc => by
    intro h1 h2
    rw [List.sum_nil] at h2
    omega
  | c :: cs, acc => by
    intro h1 h2
    rw [List.sum_cons] at h2
    by_cases hc : c = 0
    · subst hc
      have ih := dlLoop_abort maxSize cs acc h1 (by omega)
      simpa [Direct.dlLoop] using ih
    · by_cases hns : maxSize < acc + c
      · simp [Direct.dlLoop, hc, hns]
      · have ih := dlLoop_abort maxSize cs (acc + c) (by omega) (by omega)
        simp only [Direct.dlLoop]
        rw [if_neg hc, if_neg hns]
        exact ⟨ih.1, ih.2⟩

/-- During a successful download every partial accumulation of the streamed
bytes is, at some point, the content at the target path. -/
theorem dlLoop_states (maxSize : Nat) :
    ∀ (chunks : List Nat) (acc : Nat), acc + chunks.sum ≤ maxSize →
      (∀ c ∈ chunks, c ≠ 0) →
      ∀ k, 0 < k → k ≤ chunks.length →
        some (acc + (chunks.take k).sum) ∈ (Direct.dlLoop maxSize chunks acc).2.2
  | [], acc => by
    intro _ _ k hk1 hk2
    simp at hk2
    omega
  | c :: cs, acc => by
    intro hsum hnz k hk1 hk2
    rw [List.sum_cons] at hsum
    have hc : c ≠ 0 := hnz c (List.mem_cons_self c cs)
    have hns : ¬maxSize < acc + c := by omega
    simp only [Direct.dlLoop]
    rw [if_neg hc, if_neg hns]
    show some (acc + ((c :: cs).take k).sum) ∈
      some (acc + c) :: (Direct.dlLoop maxSize cs (acc + c)).2.2
    cases k with
    | zero => omega
    | succ k2 =>
      have htake : ((c :: cs).take (k2 + 1)).sum = c + (cs.take k2).sum := by
        simp
      rw [htake]
      by_cases hk0 : k2 = 0
      · subst hk0
        simp
      · have hlen : k2 ≤ cs.length := by
          simpa using hk2
        have ih := dlLoop_states maxSize cs (acc + c) (by omega)
          (fun x hx => hnz x (List.mem_cons_of_mem c hx)) k2 (by omega) hlen
        have harr : acc + (c + (cs.take k2).sum) = (acc + c) + (cs.take k2).sum := by
          omega
        rw [harr]
        exact List.mem_cons_of_mem _ ih

/-- The counters of the per-file loop of `main` count each outcome class. -/
theorem tally_spec :
    ∀ (items : List Scrape.ItemOutcome) (c : Scrape.Counts),
      items.foldl Scrape.tally c =
        ⟨c.downloaded + items.countP (fun o => decide (o = Scrape.ItemOutcome.downloaded ∨
            o = Scrape.ItemOutcome.registered)),
          c.versioned + items.countP (fun o => decide (o = Scrape.ItemOutcome.versioned)),
          c.skipped + items.countP (fun o => decide (o = Scrape.ItemOutcome.skipped)),
          c.unchanged + items.countP (fun o => decide (o = Scrape.ItemOutcome.unchanged)),
          c.errors + items.countP (fun o => decide (o = Scrape.ItemOutcome.error))⟩
  | [], c => by
    simp
  | a :: l, c => by
    rw [List.foldl_cons, tally_spec l (Scrape.tally c a)]
    cases a <;> simp [Scrape.tally, List.countP_cons] <;> omega

/-! ## Claims -/

/-- **C1** (counterexample).  The claim states that for every ledger holding a
record whose `saved_path` is a missing `.zip` with a same-stem directory on
disk, the rewrite to the directory path is present in the manifest file
written back at the end of the pass.  Concretely: the ledger `[rowZipA]`
(saved path `/d/a.zip`, missing) on the filesystem `fsA` (directory `/d/a`
exists) satisfies every hypothesis of the claim, yet `removed_count` stays 0,
so `cleanup_manifest` never writes the manifest back: the on-disk manifest
still carries the old `/d/a.zip` path, not the rewritten one. -/
theorem C1_counterexample :
    Crawl.cleanup_manifest Crawl.fsA [Crawl.rowZipA] = [Crawl.rowZipA] ∧
    Crawl.fsA.ex Crawl.rowZipA.saved_path = false ∧
    Crawl.endsWith Crawl.rowZipA.saved_path (strOf ".zip") = true ∧
    Crawl.fsA.ex (Crawl.stripZip Crawl.rowZipA.saved_path) = true ∧
    Crawl.fsA.isDir (Crawl.stripZip Crawl.rowZipA.saved_path) = true ∧
    (Crawl.zipRewrite Crawl.fsA Crawl.rowZipA).saved_path ≠ Crawl.rowZipA.saved_path := by
  decide

/-- **C1** (amended).  For every ledger containing a record whose
`saved_path` is missing from disk, ends with `.zip`, and has a same-stem
directory existing on disk, the reconciler keeps that record and rewrites its
`saved_path` to the resolved directory path (and `filename` to the directory
name) in the filtered set instead of deleting it; the rewrite reaches the
manifest file written back at the end of the pass whenever the same pass also
removed at least one record — when no record was removed the manifest file is
not rewritten and the rewrite is not persisted. -/
theorem C1_zip_rewrite_kept (fs : Crawl.FS) (rows : List Crawl.Row) (r : Crawl.Row)
    (hmem : r ∈ rows)
    (hex : fs.ex r.saved_path = false)
    (hzip : Crawl.endsWith r.saved_path (strOf ".zip") = true)
    (hfold : fs.ex (Crawl.stripZip r.saved_path) = true)
    (hdir : fs.isDir (Crawl.stripZip r.saved_path) = true) :
    Crawl.processRow fs r = some (Crawl.zipRewrite fs r) ∧
    Crawl.zipRewrite fs r ∈ Crawl.validRows fs rows ∧
    (0 < Crawl.removedCount fs rows →
      Crawl.zipRewrite fs r ∈ Crawl.cleanup_manifest fs rows) := by
  have hne : r.saved_path ≠ [] := by
    intro h
    rw [h] at hzip
    exact absurd hzip (by decide)
  have hpr : Crawl.processRow fs r = some (Crawl.zipRewrite fs r) := by
    simp [Crawl.processRow, hne, hex, hzip, hfold, hdir]
  have hv : Crawl.zipRewrite fs r ∈ Crawl.validRows fs rows := by
    unfold Crawl.validRows
    exact List.mem_filterMap.mpr ⟨r, hmem, hpr⟩
  refine ⟨hpr, hv, fun hrc => ?_⟩
  unfold Crawl.cleanup_manifest
  rw [if_pos hrc]
  exact hv

/-- Witness for the amended C1 theorem, at the ledger `[rowZipA, rowGone]`
where `rowGone` is removed (so the manifest is written back) and `rowZipA`
is rewritten to the extracted directory. -/
theorem C1_zip_rewrite_kept_witness :
    0 < Crawl.removedCount Crawl.fsA [Crawl.rowZipA, Crawl.rowGone] ∧
    Crawl.zipRewrite Crawl.fsA Crawl.rowZipA ∈
      Crawl.cleanup_manifest Crawl.fsA [Crawl.rowZipA, Crawl.rowGone] :=
  ⟨by decide,
    (C1_zip_rewrite_kept Crawl.fsA [Crawl.rowZipA, Crawl.rowGone] Crawl.rowZipA
      (by decide) (by decide) (by decide) (by decide) (by decide)).2.2 (by decide)⟩

/-- **C2** (counterexample).  The claim states that `cleanup_manifest`
returns after writing the filtered set.  On the ledger `[rowZipB]` under
`fsB` the filtered set rewrites the zip record to the directory `/e/b`, but
`removed_count` is 0, so nothing is written: the manifest on disk is not the
filtered set. -/
theorem C2_counterexample :
    Crawl.cleanup_manifest Crawl.fsB [Crawl.rowZipB] ≠
      Crawl.validRows Crawl.fsB [Crawl.rowZipB] ∧
    Crawl.validRows Crawl.fsB [Crawl.rowZipB] =
      [Crawl.zipRewrite Crawl.fsB Crawl.rowZipB] ∧
    Crawl.cleanup_manifest Crawl.fsB [Crawl.rowZipB] = [Crawl.rowZipB] := by
  decide

/-- **C2** (amended).  The reconciler removes exactly the records whose
`saved_path` is empty, or does not exist on disk and is not covered by the
zip-to-directory rule; every record whose (nonempty) `saved_path` exists is
kept with all fields unchanged, and the kept records appear in their
original order; when at least one record was removed the written-back
manifest equals the filtered set (otherwise the function returns without
writing, leaving the file as it was). -/
theorem C2_removal_exact (fs : Crawl.FS) (rows : List Crawl.Row) :
    (∀ r : Crawl.Row, r.saved_path ≠ [] → fs.ex r.saved_path = true →
      Crawl.processRow fs r = some r) ∧
    (∀ r : Crawl.Row, Crawl.processRow fs r = none ↔
      (r.saved_path = [] ∨
        (fs.ex r.saved_path = false ∧
          ¬(Crawl.endsWith r.saved_path (strOf ".zip") = true ∧
            fs.ex (Crawl.stripZip r.saved_path) = true ∧
            fs.isDir (Crawl.stripZip r.saved_path) = true)))) ∧
    List.Sublist
      (rows.filter (fun r => !r.saved_path.isEmpty && fs.ex r.saved_path))
      (Crawl.validRows fs rows) ∧
    (0 < Crawl.removedCount fs rows →
      Crawl.cleanup_manifest fs rows = Crawl.validRows fs rows) := by
  have hkeep : ∀ r : Crawl.Row, r.saved_path ≠ [] → fs.ex r.saved_path = true →
      Crawl.processRow fs r = some r := by
    intro r h1 h2
    simp [Crawl.processRow, h1, h2]
  refine ⟨hkeep, fun r => processRow_eq_none_iff fs r, ?_, fun hrc => ?_⟩
  · unfold Crawl.validRows
    refine filter_sublist_filterMap _ _ ?_ rows
    intro r hr
    rw [Bool.and_eq_true, Bool.not_eq_true', List.isEmpty_eq_false_iff_exists_mem] at hr
    exact hkeep r (by rcases hr.1 with ⟨x, hx⟩; intro hnil; rw [hnil] at hx; cases hx) hr.2
  · unfold Crawl.cleanup_manifest
    rw [if_pos hrc]

/-- Witness for the amended C2 theorem: a kept row is returned unchanged, and
on a ledger with one stale row the write-back equals the filtered set. -/
theorem C2_removal_exact_witness :
    Crawl.processRow Crawl.fsA Crawl.rowKept = some Crawl.rowKept ∧
    0 < Crawl.removedCount Crawl.fsA [Crawl.rowKept, Crawl.rowGone] ∧
    Crawl.cleanup_manifest Crawl.fsA [Crawl.rowKept, Crawl.rowGone] =
      Crawl.validRows Crawl.fsA [Crawl.rowKept, Crawl.rowGone] :=
  ⟨(C2_removal_exact Crawl.fsA []).1 Crawl.rowKept (by decide) (by decide),
    by decide,
    (C2_removal_exact Crawl.fsA [Crawl.rowKept, Crawl.rowGone]).2.2.2 (by decide)⟩

/-- Unfolding one step of a content trace. -/
theorem contentTrace_cons (fs : FileOps.FileSys) (op : FileOps.FOp) (ops : List FileOps.FOp)
    (p : Str) :
    FileOps.contentTrace fs (op :: ops) p =
      fs p :: FileOps.contentTrace (FileOps.applyOp fs op) ops p := rfl

/-- While writing chunks to `tmp` and finally renaming `tmp` over `m`, the
content at `m` is either untouched or the full accumulated content; the
accumulated content is reached. -/
theorem append_ren_trace (m tmp : Str) (hne : tmp ≠ m) :
    ∀ (chunks : List Str) (fs : FileOps.FileSys) (s : Str), fs tmp = some s →
      (∀ c ∈ FileOps.contentTrace fs
          (chunks.map (FileOps.FOp.append tmp) ++ [FileOps.FOp.ren tmp m]) m,
        c = fs m ∨ c = some (chunks.foldl (· ++ ·) s)) ∧
      some (chunks.foldl (· ++ ·) s) ∈ FileOps.contentTrace fs
          (chunks.map (FileOps.FOp.append tmp) ++ [FileOps.FOp.ren tmp m]) m
  | [], fs, s => by
    intro hs
    have hm : (FileOps.applyOp fs (FileOps.FOp.ren tmp m)) m = some s := by
      simp [FileOps.applyOp, hs]
    constructor
    · intro c hc
      simp only [List.map_nil, List.nil_append, contentTrace_cons] at hc
      simp only [FileOps.contentTrace, FileOps.traceStates, List.map_cons, List.map_nil,
        List.mem_cons, List.not_mem_nil, or_false] at hc
      rcases hc with h | h
      · exact Or.inl h
      · exact Or.inr (h.trans hm)
    · simp only [List.map_nil, List.nil_append, List.foldl_nil]
      simp only [FileOps.contentTrace, FileOps.traceStates, List.map_cons, List.map_nil,
        List.mem_cons, List.not_mem_nil, or_false]
      exact Or.inr hm.symm
  | ch :: cs, fs, s => by
    intro hs
    have hmt : ¬m = tmp := fun h => hne h.symm
    have hm : (FileOps.applyOp fs (FileOps.FOp.append tmp ch)) m = fs m := by
      simp [FileOps.applyOp, hmt]
    have ht : (FileOps.applyOp fs (FileOps.FOp.append tmp ch)) tmp = some (s ++ ch) := by
      simp [FileOps.applyOp, hs]
    have ih := append_ren_trace m tmp hne cs (FileOps.applyOp fs (FileOps.FOp.append tmp ch))
      (s ++ ch) ht
    constructor
    · intro c hc
      rw [List.map_cons, List.cons_append, contentTrace_cons] at hc
      rcases List.mem_cons.mp hc with h | h
      · exact Or.inl h
      · rcases ih.1 c h with h2 | h2
        · exact Or.inl (h2.trans hm)
        · exact Or.inr h2
    · rw [List.map_cons, List.cons_append, contentTrace_cons]
      exact List.mem_cons_of_mem _ ih.2

/-- **C3** (counterexample).  The claim states that every rewrite of the
persisted manifest file is an atomic temp-file-and-rename.  `save_manifest`
(`src/yb_direct_download_scraper.py` lines 209-212) instead opens the
manifest path itself with mode `"w"`: on a manifest holding `OLD` that is
rewritten to `ABCD` in two buffered writes, the file passes through the
intermediate contents `""` and `"AB"`, which are neither the complete
pre-write state nor the complete post-write state. -/
theorem C3_counterexample :
    FileOps.contentTrace FileOps.fsOld
        (FileOps.saveOps (strOf "m.json") [strOf "AB", strOf "CD"]) (strOf "m.json") =
      [some (strOf "OLD"), some [], some (strOf "AB"), some (strOf "ABCD")] ∧
    (some [] : Option Str) ≠ some (strOf "OLD") ∧
    (some [] : Option Str) ≠ some (strOf "ABCD") ∧
    FileOps.joinChunks [strOf "AB", strOf "CD"] = strOf "ABCD" := by
  decide

/-- **C3** (amended).  The reconciler's manifest write-back
(`cleanup_manifest` in `src/scraping/crawl_yearbook.py`) is an atomic
replace: writing the new content to a temp path and renaming it over the
manifest leaves the manifest path, at every intermediate point, equal to
either the complete pre-write content or the complete post-write content —
but this does not hold for all code paths that save a manifest:
`save_manifest` in `src/yb_direct_download_scraper.py` rewrites the JSON
manifest in place, exposing partial intermediate contents. -/
theorem C3_atomic_cleanup_write (fs : FileOps.FileSys) (m tmp : Str) (chunks : List Str)
    (hne : tmp ≠ m) :
    (∀ c ∈ FileOps.contentTrace fs (FileOps.atomicOps m tmp chunks) m,
      c = fs m ∨ c = some (FileOps.joinChunks chunks)) ∧
    some (FileOps.joinChunks chunks) ∈
      FileOps.contentTrace fs (FileOps.atomicOps m tmp chunks) m := by
  have hmt : ¬m = tmp := fun h => hne h.symm
  have hm : (FileOps.applyOp fs (FileOps.FOp.trunc tmp)) m = fs m := by
    simp [FileOps.applyOp, hmt]
  have ht : (FileOps.applyOp fs (FileOps.FOp.trunc tmp)) tmp = some [] := by
    simp [FileOps.applyOp]
  have hmid := append_ren_trace m tmp hne chunks (FileOps.applyOp fs (FileOps.FOp.trunc tmp))
    [] ht
  constructor
  · intro c hc
    rw [FileOps.atomicOps, contentTrace_cons] at hc
    rcases List.mem_cons.mp hc with h | h
    · exact Or.inl h
    · rcases hmid.1 c h with h2 | h2
      · exact Or.inl (h2.trans hm)
      · exact Or.inr h2
  · rw [FileOps.atomicOps, contentTrace_cons]
    exact List.mem_cons_of_mem _ hmid.2

/-- **C4** (counterexample).  The claim states that the header short-circuit
skips if and only if validators are *available* and match, and that absent
validators fall through to downloading.  But when neither `ETag` nor
`Last-Modified` is present, both default to the empty string, the header key
is `"|"`, and if the previous run stored the same `"|"` the check returns
`False` (skip) — validators are absent on both runs, yet the URL is skipped
rather than downloaded. -/
theorem C4_counterexample :
    (Direct.check_url_changed (strOf "https://x/f.pdf")
        (Direct.HeadResult.ok [] []) Direct.mBarOnly).1 = false ∧
    Direct.headerKey [] [] = strOf "|" ∧
    Direct.alLookup Direct.mBarOnly.urlMeta (strOf "https://x/f.pdf") = some (strOf "|") := by
  decide

/-- **C4** (amended).  The header short-circuit skips a URL (decision
`False`, no body fetch — the check issues only a HEAD request) if and only
if the HEAD succeeded and the stored header key equals the observed
`"etag|last_modified"` key; this includes the case where both validators are
absent (both empty, key `"|"`).  When the header fetch fails the check
returns `True` and leaves the manifest unchanged — it falls through to
downloading instead of skipping or failing.  Two successive checks observing
identical header values always make the second one skip. -/
theorem C4_header_gate (url : Str) (hr : Direct.HeadResult) (m : Direct.Manifest) :
    ((Direct.check_url_changed url hr m).1 = false ↔
      ∃ e l, hr = Direct.HeadResult.ok e l ∧
        Direct.alLookup m.urlMeta url = some (Direct.headerKey e l)) ∧
    (hr = Direct.HeadResult.fail → Direct.check_url_changed url hr m = (true, m)) ∧
    (∀ e l, (Direct.check_url_changed url (Direct.HeadResult.ok e l)
        ((Direct.check_url_changed url (Direct.HeadResult.ok e l) m).2)).1 = false) := by
  refine ⟨check_url_changed_skip_iff url hr m, ?_, ?_⟩
  · rintro rfl
    rfl
  · intro e l
    rw [check_url_changed_skip_iff]
    refine ⟨e, l, rfl, ?_⟩
    rw [check_url_changed_caches]
    exact alLookup_insert_self ..

/-- Witness for the amended C4 theorem: a second check observing the same
validators as a first one skips. -/
theorem C4_header_gate_witness :
    (Direct.check_url_changed (strOf "u") (Direct.HeadResult.ok (strOf "E") (strOf "L"))
      ((Direct.check_url_changed (strOf "u") (Direct.HeadResult.ok (strOf "E") (strOf "L"))
        (⟨[], []⟩ : Direct.Manifest)).2)).1 = false :=
  (C4_header_gate (strOf "u") (Direct.HeadResult.ok (strOf "E") (strOf "L"))
    (⟨[], []⟩ : Direct.Manifest)).2.2 (strOf "E") (strOf "L")

/-- **C5** (counterexample).  The claim states that non-transient failures
(4xx status codes other than 429) are not retried and surface immediately.
On a server answering 404 to every attempt — a non-transient status, not in
`retrying_get`'s retryable list — `retrying_get` nevertheless makes all 4
attempts (sleeping 1, 2 and 4 seconds between them) and
`make_request_with_retry` makes all 3, because `raise_for_status` errors are
caught by the same handlers as transient ones. -/
theorem C5_counterexample :
    Scrape.rgCount (fun _ => Outcome.resp 404) = 4 ∧
    (Scrape.retrying_get (fun _ => Outcome.resp 404)).2 = [1, 2, 4] ∧
    Direct.mrCount (fun _ => Outcome.resp 404) 3 = 3 ∧
    (Direct.make_request_with_retry (fun _ => Outcome.resp 404) 3).2 = [1, 2] ∧
    404 ∉ Scrape.retryable ∧
    raiseFails 404 = true := by
  decide

/-- **C5** (amended).  Network retrieval is retried with exponential backoff
(delays 1, 2, 4, … seconds) and a bounded number of attempts — 4 in
`retrying_get` and 3 in `make_request_with_retry` — but on *every* failure:
timeouts, connection errors, and all HTTP error statuses, including
non-transient 4xx other than 429; such failures do not surface immediately
but only after all attempts are exhausted.  The first successful attempt is
returned, and failure is reported exactly when every attempt failed. -/
theorem C5_retry_all_failures (outcomes : Nat → Outcome) :
    (∀ k, (Scrape.retrying_get outcomes).1 = some k →
      k ≤ 3 ∧ Scrape.rgAttemptOk (outcomes k) = true ∧
      ∀ j, j < k → Scrape.rgAttemptOk (outcomes j) = false) ∧
    ((Scrape.retrying_get outcomes).1 = none ↔
      ∀ j, j ≤ 3 → Scrape.rgAttemptOk (outcomes j) = false) ∧
    Scrape.rgCount outcomes ≤ 4 ∧
    (Scrape.retrying_get outcomes).2 =
      (List.range (Scrape.rgCount outcomes - 1)).map (fun t => 2 ^ t) ∧
    (∀ k, (Direct.make_request_with_retry outcomes 3).1 = some k →
      k < 3 ∧ attemptOk (outcomes k) = true ∧
      ∀ j, j < k → attemptOk (outcomes j) = false) ∧
    ((Direct.make_request_with_retry outcomes 3).1 = none ↔
      ∀ j, j < 3 → attemptOk (outcomes j) = false) ∧
    Direct.mrCount outcomes 3 ≤ 3 ∧
    (Direct.make_request_with_retry outcomes 3).2 =
      (List.range (Direct.mrCount outcomes 3 - 1)).map (fun t => 2 ^ t) := by
  have hrg := rgLoop_spec outcomes 4 0 1 (by omega)
  have hmr := mrLoop_spec outcomes 3 4 0 (by omega)
  have hrg1 : ∀ k, (Scrape.retrying_get outcomes).1 = some k →
      k ≤ 3 ∧ Scrape.rgAttemptOk (outcomes k) = true ∧
      ∀ j, j < k → Scrape.rgAttemptOk (outcomes j) = false := by
    intro k hk
    obtain ⟨_, h2, h3, h4⟩ := hrg.1 k hk
    exact ⟨h2, h3, fun j hj => h4 j (Nat.zero_le j) hj⟩
  have hrgA : (Scrape.retrying_get outcomes).1 = none ↔
      ∀ j, 0 ≤ j → j ≤ 3 → Scrape.rgAttemptOk (outcomes j) = false := hrg.2.1
  have hrg2 : (Scrape.retrying_get outcomes).1 = none ↔
      ∀ j, j ≤ 3 → Scrape.rgAttemptOk (outcomes j) = false := by
    rw [hrgA]
    exact ⟨fun h j hj => h j (Nat.zero_le j) hj, fun h j _ hj => h j hj⟩
  have hmr1 : ∀ k, (Direct.make_request_with_retry outcomes 3).1 = some k →
      k < 3 ∧ attemptOk (outcomes k) = true ∧
      ∀ j, j < k → attemptOk (outcomes j) = false := by
    intro k hk
    obtain ⟨_, h2, h3, h4⟩ := hmr.1 k hk
    exact ⟨h2, h3, fun j hj => h4 j (Nat.zero_le j) hj⟩
  have hmrA : (Direct.make_request_with_retry outcomes 3).1 = none ↔
      ∀ j, 0 ≤ j → j < 3 → attemptOk (outcomes j) = false := hmr.2.1
  have hmr2 : (Direct.make_request_with_retry outcomes 3).1 = none ↔
      ∀ j, j < 3 → attemptOk (outcomes j) = false := by
    rw [hmrA]
    exact ⟨fun h j hj => h j (Nat.zero_le j) hj, fun h j _ hj => h j hj⟩
  refine ⟨hrg1, hrg2, ?_, ?_, hmr1, hmr2, ?_, ?_⟩
  · unfold Scrape.rgCount
    cases hr : (Scrape.retrying_get outcomes).1 with
    | some k =>
      have h1 := (hrg1 k hr).1
      show k + 1 ≤ 4
      omega
    | none => show 4 ≤ 4; omega
  · have hd : (Scrape.retrying_get outcomes).2 =
        (List.range (match (Scrape.retrying_get outcomes).1 with
          | some k => k - 0
          | none => 3 - 0)).map (fun t => 1 * 2 ^ t) := hrg.2.2
    have hc : (match (Scrape.retrying_get outcomes).1 with
        | some k => k - 0
        | none => 3 - 0) = Scrape.rgCount outcomes - 1 := by
      unfold Scrape.rgCount
      cases (Scrape.retrying_get outcomes).1 <;> simp
    rw [hc] at hd
    rw [hd]
    simp
  · unfold Direct.mrCount
    cases hr : (Direct.make_request_with_retry outcomes 3).1 with
    | some k =>
      have h1 := (hmr1 k hr).1
      show k + 1 ≤ 3
      omega
    | none => show 3 ≤ 3; omega
  · have hd : (Direct.make_request_with_retry outcomes 3).2 =
        (List.range (match (Direct.make_request_with_retry outcomes 3).1 with
          | some k => k - 0
          | none => 3 - 1 - 0)).map (fun t => 2 ^ (0 + t)) := hmr.2.2
    have hc : (match (Direct.make_request_with_retry outcomes 3).1 with
        | some k => k - 0
        | none => 3 - 1 - 0) = Direct.mrCount outcomes 3 - 1 := by
      unfold Direct.mrCount
      cases (Direct.make_request_with_retry outcomes 3).1 <;> simp
    rw [hc] at hd
    rw [hd]
    simp

/-- Witness for the amended C5 theorem: a run failing with 503 twice and
succeeding on the third attempt returns attempt index 2. -/
theorem C5_retry_all_failures_witness :
    (2 ≤ 3 ∧ Scrape.rgAttemptOk ((fun i => if i < 2 then Outcome.resp 503
        else Outcome.resp 200) 2) = true ∧
      ∀ j, j < 2 → Scrape.rgAttemptOk ((fun i => if i < 2 then Outcome.resp 503
        else Outcome.resp 200) j) = false) :=
  (C5_retry_all_failures
    (fun i => if i < 2 then Outcome.resp 503 else Outcome.resp 200)).1 2 (by decide)

/-- **C10** (implicit, confirmed).  Every `check_url_changed` call whose HEAD
succeeds overwrites `manifest["_url_meta"][url]` with the newly observed
`"etag|last_modified"` key before returning — also when it returns `True`
(changed).  Consequently, when the first run's check reports changed and the
subsequent download fails (the `files` table is left untouched), a later run
observing the same remote headers gets `False` and skips the URL without
attempting a download, although the file was never successfully saved. -/
theorem C10_header_cache_stale (url e l filename : Str) (year now now2 : Nat)
    (m : Direct.Manifest) (localHash2 : Option Str) (dlOk2 : Bool)
    (dlHash dlHash2 : Option Str)
    (hMeta : Direct.alLookup m.urlMeta url ≠ some (Direct.headerKey e l)) :
    (∀ m' : Direct.Manifest,
      Direct.alLookup
        ((Direct.check_url_changed url (Direct.HeadResult.ok e l) m').2).urlMeta url =
        some (Direct.headerKey e l)) ∧
    (Direct.check_url_changed url (Direct.HeadResult.ok e l) m).1 = true ∧
    (Direct.processLink year filename url (Direct.HeadResult.ok e l)
        none false dlHash m now).1 = Direct.LinkResult.failed ∧
    (Direct.processLink year filename url (Direct.HeadResult.ok e l)
        none false dlHash m now).2.2.files = m.files ∧
    (Direct.processLink year filename url (Direct.HeadResult.ok e l) localHash2 dlOk2 dlHash2
        (Direct.processLink year filename url (Direct.HeadResult.ok e l)
          none false dlHash m now).2.2 now2).1 = Direct.LinkResult.skippedHeaders ∧
    (Direct.processLink year filename url (Direct.HeadResult.ok e l) localHash2 dlOk2 dlHash2
        (Direct.processLink year filename url (Direct.HeadResult.ok e l)
          none false dlHash m now).2.2 now2).2.1 = false := by
  have hcache : ∀ m' : Direct.Manifest,
      Direct.alLookup
        ((Direct.check_url_changed url (Direct.HeadResult.ok e l) m').2).urlMeta url =
        some (Direct.headerKey e l) := by
    intro m'
    rw [check_url_changed_caches]
    exact alLookup_insert_self ..
  have htrue : (Direct.check_url_changed url (Direct.HeadResult.ok e l) m).1 = true := by
    cases hb : (Direct.check_url_changed url (Direct.HeadResult.ok e l) m).1 with
    | true => rfl
    | false =>
      rcases (check_url_changed_skip_iff url (Direct.HeadResult.ok e l) m).mp hb with
        ⟨e2, l2, heq, hl⟩
      injection heq with he2 hl2
      subst he2
      subst hl2
      exact absurd hl hMeta
  have hrun1 : Direct.processLink year filename url (Direct.HeadResult.ok e l)
      none false dlHash m now =
      (Direct.LinkResult.failed, true,
        (Direct.check_url_changed url (Direct.HeadResult.ok e l) m).2) := by
    cases hfk : Direct.alLookup
        ((Direct.check_url_changed url (Direct.HeadResult.ok e l) m).2).files
        (Direct.fileKey year filename) with
    | none => simp [Direct.processLink, htrue, hfk]
    | some entry => simp [Direct.processLink, htrue, hfk]
  have hskip2 : (Direct.check_url_changed url (Direct.HeadResult.ok e l)
      ((Direct.check_url_changed url (Direct.HeadResult.ok e l) m).2)).1 = false := by
    rw [check_url_changed_skip_iff]
    exact ⟨e, l, rfl, hcache m⟩
  refine ⟨hcache, htrue, ?_, ?_, ?_, ?_⟩
  · rw [hrun1]
  · rw [hrun1]
    exact check_url_changed_files url (Direct.HeadResult.ok e l) m
  · rw [hrun1]
    simp [Direct.processLink, hskip2]
  · rw [hrun1]
    simp [Direct.processLink, hskip2]

/-- Witness for the C10 theorem: on an empty manifest, a failed first run
followed by a second run observing identical headers skips the URL. -/
theorem C10_header_cache_stale_witness :
    (Direct.processLink 1996 (strOf "a.pdf") (strOf "u")
        (Direct.HeadResult.ok (strOf "E") (strOf "L")) none true (some (strOf "h"))
        ((Direct.processLink 1996 (strOf "a.pdf") (strOf "u")
          (Direct.HeadResult.ok (strOf "E") (strOf "L")) none false none
          (⟨[], []⟩ : Direct.Manifest) 5).2.2) 6).1 = Direct.LinkResult.skippedHeaders :=
  (C10_header_cache_stale (strOf "u") (strOf "E") (strOf "L") (strOf "a.pdf") 1996 5 6
    (⟨[], []⟩ : Direct.Manifest) none true none (some (strOf "h")) (by decide)).2.2.2.2.1

/-- Witness for the amended C3 theorem: a concrete atomic write-back of the
chunks `X`, `Y` over an existing manifest. -/
theorem C3_atomic_cleanup_write_witness :
    strOf "m.tmp" ≠ strOf "m.json" ∧
    (∀ c ∈ FileOps.contentTrace FileOps.fsOld
        (FileOps.atomicOps (strOf "m.json") (strOf "m.tmp") [strOf "X", strOf "Y"])
        (strOf "m.json"),
      c = FileOps.fsOld (strOf "m.json") ∨
        c = some (FileOps.joinChunks [strOf "X", strOf "Y"])) :=
  ⟨by decide,
    (C3_atomic_cleanup_write FileOps.fsOld (strOf "m.json") (strOf "m.tmp")
      [strOf "X", strOf "Y"] (by decide)).1⟩

/-- **C6** (counterexample).  The claim states that the body is streamed to
a staging location and only on success atomically moved, so that no partial
file ever exists at the final artifact path.  `download_file` instead opens
the final path itself (`open(filepath, "wb")`):  downloading two 5-byte
chunks, the final path holds the partial 5-byte content mid-download. -/
theorem C6_counterexample :
    (Direct.download_file none [5, 5] 100 none).1 = true ∧
    (Direct.download_file none [5, 5] 100 none).2.1 = some 10 ∧
    some 5 ∈ (Direct.download_file none [5, 5] 100 none).2.2 ∧
    (5 : Nat) ≠ 10 := by
  decide

/-- **C6** (amended).  `download_file` in the direct-download scraper streams
the remote body directly to the final artifact path: on a successful
download every partial accumulation of the streamed chunks is, at some
point, the content at the final path (the empty just-truncated file
included), and only the last state is the complete artifact.  (The `.tmp`
staging folders cleaned by `cleanup_tmp_folders` belong to the
`ManifestState` materializer, not to this code path.) -/
theorem C6_no_staging (cl : Option Nat) (chunks : List Nat) (maxSize : Nat) (init : Option Nat)
    (hcl : Direct.clTooLarge cl maxSize = false)
    (hsum : chunks.sum ≤ maxSize)
    (hnz : ∀ c ∈ chunks, c ≠ 0) :
    (Direct.download_file cl chunks maxSize init).1 = true ∧
    (Direct.download_file cl chunks maxSize init).2.1 = some chunks.sum ∧
    ∀ k, k ≤ chunks.length →
      some ((chunks.take k).sum) ∈ (Direct.download_file cl chunks maxSize init).2.2 := by
  have hs := dlLoop_success maxSize chunks 0 (by omega)
  have hdf : Direct.download_file cl chunks maxSize init =
      ((Direct.dlLoop maxSize chunks 0).1, (Direct.dlLoop maxSize chunks 0).2.1,
        init :: some 0 :: (Direct.dlLoop maxSize chunks 0).2.2) := by
    simp [Direct.download_file, hcl]
  rw [hdf]
  refine ⟨hs.1, by rw [hs.2]; congr 1; omega, ?_⟩
  intro k hk
  cases hk0 : k with
  | zero =>
    simp
  | succ k2 =>
    have hmem := dlLoop_states maxSize chunks 0 (by omega) hnz k (by omega) (by omega)
    rw [hk0] at hmem
    have hz : (0 : Nat) + ((chunks.take (k2 + 1)).sum) = (chunks.take (k2 + 1)).sum := by
      omega
    rw [hz] at hmem
    exact List.mem_cons_of_mem _ (List.mem_cons_of_mem _ hmem)

/-- Witness for the amended C6 theorem: after the first of two 5-byte
chunks, the 5-byte partial content sits at the final path. -/
theorem C6_no_staging_witness :
    some ((([5, 5] : List Nat).take 1).sum) ∈ (Direct.download_file none [5, 5] 100 none).2.2 :=
  (C6_no_staging none [5, 5] 100 none (by decide) (by decide) (by decide)).2.2 1 (by decide)

/-- **C7** (confirmed).  `download_file` enforces the maximum size: when the
`Content-Length` header already exceeds the limit nothing is written at all
(the call returns `False` with the target untouched), when the streamed
bytes exceed the limit the write is aborted and the partial file removed —
no file remains at the target path and `False` is returned — and a `True`
result is only ever reported when the total size fits the limit. -/
theorem C7_size_limit (cl : Option Nat) (chunks : List Nat) (maxSize : Nat)
    (init : Option Nat) :
    (Direct.clTooLarge cl maxSize = true →
      Direct.download_file cl chunks maxSize init = (false, init, [init])) ∧
    (Direct.clTooLarge cl maxSize = false → maxSize < chunks.sum →
      (Direct.download_file cl chunks maxSize init).1 = false ∧
      (Direct.download_file cl chunks maxSize init).2.1 = none) ∧
    ((Direct.download_file cl chunks maxSize init).1 = true → chunks.sum ≤ maxSize) := by
  refine ⟨?_, ?_, ?_⟩
  · intro h
    simp [Direct.download_file, h]
  · intro h1 h2
    have ha := dlLoop_abort maxSize chunks 0 (by omega) (by omega)
    have hdf : Direct.download_file cl chunks maxSize init =
        ((Direct.dlLoop maxSize chunks 0).1, (Direct.dlLoop maxSize chunks 0).2.1,
          init :: some 0 :: (Direct.dlLoop maxSize chunks 0).2.2) := by
      simp [Direct.download_file, h1]
    rw [hdf]
    exact ⟨ha.1, ha.2⟩
  · intro hok
    by_cases h1 : Direct.clTooLarge cl maxSize = true
    · rw [(by simp [Direct.download_file, h1] :
          Direct.download_file cl chunks maxSize init = (false, init, [init]))] at hok
      cases hok
    · by_cases h2 : maxSize < chunks.sum
      · have ha := dlLoop_abort maxSize chunks 0 (by omega) (by omega)
        have hfalse : Direct.clTooLarge cl maxSize = false := by
          simpa using h1
        have hdf : Direct.download_file cl chunks maxSize init =
            ((Direct.dlLoop maxSize chunks 0).1, (Direct.dlLoop maxSize chunks 0).2.1,
              init :: some 0 :: (Direct.dlLoop maxSize chunks 0).2.2) := by
          simp [Direct.download_file, hfalse]
        rw [hdf] at hok
        rw [ha.1] at hok
        cases hok
      · omega

/-- Witness for the C7 theorem: a 600-byte stream against a 500-byte limit
fails and leaves no file at the target. -/
theorem C7_size_limit_witness :
    Direct.clTooLarge none 500 = false ∧ 500 < ([300, 300] : List Nat).sum ∧
    (Direct.download_file none [300, 300] 500 (some 7)).1 = false ∧
    (Direct.download_file none [300, 300] 500 (some 7)).2.1 = none :=
  ⟨by decide, by decide,
    ((C7_size_limit none [300, 300] 500 (some 7)).2.1 (by decide) (by decide)).1,
    ((C7_size_limit none [300, 300] 500 (some 7)).2.1 (by decide) (by decide)).2⟩

/-- **C8** (counterexample).  The claim states that the run signals non-zero
exit status exactly when top-level discovery fails.  In
`src/scraping/scrape_yearbook.py`, `main` catches the discovery exception,
logs it and ends in a bare `return` (value `None`), and the script's last
statement is a bare `main()` call — so the interpreter exits with status 0
even when discovery fails. -/
theorem C8_counterexample :
    Scrape.scrapeExit Scrape.Discovery.fail = 0 ∧
    (Scrape.scrapeMain Scrape.Discovery.fail).1 = none := by
  constructor
  · rfl
  · rfl

/-- **C8** (amended).  A crawl run of `scrape_yearbook.py` exits with status
0 even when individual per-item downloads fail: each outcome is tallied in
the summary counters (`errors` counts exactly the caught per-item failures,
`downloaded` the fresh downloads plus registrations, and so on) and the loop
continues through every item; but the run also exits with status 0 when
top-level discovery fails — `main` logs the error and returns `None`, and
the bare `main()` call never signals a non-zero status. -/
theorem C8_exit_zero_and_counts (d : Scrape.Discovery) (items : List Scrape.ItemOutcome) :
    Scrape.scrapeExit d = 0 ∧
    (Scrape.runCounts items).errors =
      items.countP (fun o => decide (o = Scrape.ItemOutcome.error)) ∧
    (Scrape.runCounts items).downloaded =
      items.countP (fun o => decide (o = Scrape.ItemOutcome.downloaded ∨
        o = Scrape.ItemOutcome.registered)) ∧
    (Scrape.runCounts items).versioned =
      items.countP (fun o => decide (o = Scrape.ItemOutcome.versioned)) ∧
    (Scrape.runCounts items).skipped =
      items.countP (fun o => decide (o = Scrape.ItemOutcome.skipped)) ∧
    (Scrape.runCounts items).unchanged =
      items.countP (fun o => decide (o = Scrape.ItemOutcome.unchanged)) := by
  have hrc := tally_spec items ⟨0, 0, 0, 0, 0⟩
  refine ⟨rfl, ?_, ?_, ?_, ?_, ?_⟩ <;>
    · unfold Scrape.runCounts
      rw [hrc]
      simp

/-- Witness for the amended C8 theorem: a run with one error and one
download exits 0. -/
theorem C8_exit_zero_and_counts_witness :
    Scrape.scrapeExit
      (Scrape.Discovery.ok [Scrape.ItemOutcome.error, Scrape.ItemOutcome.downloaded]) = 0 :=
  (C8_exit_zero_and_counts
    (Scrape.Discovery.ok [Scrape.ItemOutcome.error, Scrape.ItemOutcome.downloaded])
    [Scrape.ItemOutcome.error, Scrape.ItemOutcome.downloaded]).1

/-- **C9** (confirmed; `ManifestState.plan` and `register_existing_file` are
modelled from the spec, the module `manifest_state` being absent from the
sources).  For every candidate whose file already exists at the expected
output path while the (period, url) key is absent from the ledger index, the
per-item loop of `main` calls `register_existing_file` and moves on to the
next candidate without calling `download_and_record` — the existing file is
registered, not re-downloaded. -/
theorem C9_register_existing (hasRecord validatorsMatch modeSafe fileEx registerOk : Bool)
    (dl : Option Str)
    (hEx : fileEx = true) (hNoRec : hasRecord = false) :
    (Scrape.processItem hasRecord validatorsMatch modeSafe fileEx registerOk dl).calledRegister =
      true ∧
    (Scrape.processItem hasRecord validatorsMatch modeSafe fileEx registerOk dl).calledDownload =
      false ∧
    (Scrape.processItem hasRecord validatorsMatch modeSafe fileEx registerOk dl).outcome =
      (if registerOk then Scrape.ItemOutcome.registered
        else Scrape.ItemOutcome.registerFailed) := by
  subst hEx
  subst hNoRec
  simp [Scrape.processItem, Scrape.plan]

/-- Witness for the C9 theorem at concrete flag values. -/
theorem C9_register_existing_witness :
    (Scrape.processItem false false true true true none).calledRegister = true ∧
    (Scrape.processItem false false true true true none).calledDownload = false :=
  ⟨(C9_register_existing false false true true true none rfl rfl).1,
    (C9_register_existing false false true true true none rfl rfl).2.1⟩

end Gale
